import Mathlib

/-!
Verification of the in-memory rate limiter (cache.ts and single.ts).

The cache is a JavaScript Map from string keys to records
with an integer value and an optional expiry instant (epoch ms).
We model the Map as an association list in insertion order:
Map.set on an existing key updates in place, a new key is appended,
and Map.delete removes the entry.  JavaScript numbers on all reachable
paths are integers (Int); instants and durations are Nat.
-/

structure CacheEntry where
  value : Int
  expireAt : Option Nat
  deriving Repr, DecidableEq

abbrev CacheState := List (String × CacheEntry)

/-- Map.get: first (and in well-formed states only) binding of the key. -/
def lookupE : CacheState → String → Option CacheEntry
  | [], _ => none
  | (k, e) :: rest, key => if k = key then some e else lookupE rest key

/-- Map.set: replace the binding in place, or append a new one. -/
def setE : CacheState → String → CacheEntry → CacheState
  | [], key, e => [(key, e)]
  | (k, e0) :: rest, key, e =>
    if k = key then (k, e) :: rest else (k, e0) :: setE rest key e

/-- Map.delete: remove the binding of the key. -/
def delE : CacheState → String → CacheState
  | [], _ => []
  | (k, e) :: rest, key => if k = key then rest else (k, e) :: delE rest key

namespace Cache

/-- Cache.isBlocked (cache.ts lines 13-24).  Returns the flag and stored
reset together with the possibly updated cache state (a stale record,
one whose instant is strictly in the past, is deleted). -/
def isBlocked (c : CacheState) (now : Nat) (identifier : String) :
    (Bool × Int) × CacheState :=
  match lookupE c identifier with
  | none => ((false, 0), c)
  | some e =>
    if e.value < (now : Int) then ((false, 0), delE c identifier)
    else ((true, e.value), c)

/-- Cache.blockUntil (cache.ts lines 26-28): raw Map.set with no expireAt. -/
def blockUntil (c : CacheState) (identifier : String) (reset : Int) : CacheState :=
  setE c identifier ⟨reset, none⟩

/-- Cache.set (cache.ts lines 30-35): upsert the value, keeping the old
expireAt when present and otherwise writing 0 (the ?? 0 default). -/
def set (c : CacheState) (key : String) (value : Int) : CacheState :=
  setE c key ⟨value, some (((lookupE c key).bind CacheEntry.expireAt).getD 0)⟩

/-- Cache.get (cache.ts lines 36-38): value || null, so a stored 0 is
returned as null; expireAt is not consulted and nothing is deleted. -/
def get (c : CacheState) (key : String) : Option Int :=
  match lookupE c key with
  | none => none
  | some e => if e.value = 0 then none else some e.value

/-- Keep predicate of Cache.cleanup: an entry is deleted when expireAt is
truthy (present and nonzero) and now has reached it. -/
def keepEntry (now : Nat) (e : CacheEntry) : Bool :=
  match e.expireAt with
  | none => true
  | some ea => decide (ea = 0) || decide (now < ea)

/-- Cache.cleanup (cache.ts lines 53-62): full sweep of expired entries. -/
def cleanup (c : CacheState) (now : Nat) : CacheState :=
  c.filter (fun p => keepEntry now p.2)

/-- Cache.incr (cache.ts lines 40-46): sweep, then read (?? 0), add one,
store via Cache.set, return the new value. -/
def incr (c : CacheState) (now : Nat) (key : String) : Int × CacheState :=
  let c1 := cleanup c now
  let value := ((lookupE c1 key).map CacheEntry.value).getD 0 + 1
  (value, Cache.set c1 key value)

/-- Cache.expire (cache.ts lines 47-52): sets expireAt = now + duration on
an existing key; on an absent key the source dereferences undefined and
throws, modelled as none. -/
def expire (c : CacheState) (now : Nat) (key : String) (duration : Nat) :
    Option CacheState :=
  match lookupE c key with
  | none => none
  | some e => some (setE c key ⟨e.value, some (now + duration)⟩)

end Cache

/-- The verdict returned by every algorithm (pending is always an already
resolved promise in this in-memory core and is omitted). -/
structure Verdict where
  success : Bool
  limit : Int
  remaining : Int
  reset : Int
  deriving Repr, DecidableEq

namespace RegionRatelimit

/-- RegionRatelimit.fixedWindow (single.ts lines 87-124), one call at
instant now.  none models a thrown exception (unreachable here since
expire always follows incr on the same key). -/
def fixedWindow (tokens : Int) (windowDuration : Nat) (cache : Option CacheState)
    (now : Nat) (identifier : String) : Option (Verdict × Option CacheState) :=
  let bucket := now / windowDuration
  let key := identifier ++ ":" ++ toString bucket
  match cache with
  | some c =>
    let r := Cache.isBlocked c now identifier
    let blocked := r.1.1
    let reset := r.1.2
    let c1 := r.2
    if blocked then
      some (⟨false, tokens, 0, reset⟩, some c1)
    else
      let r2 := Cache.incr c1 now key
      let usedTokensAfterUpdate := r2.1
      match Cache.expire r2.2 now key windowDuration with
      | none => none
      | some c3 =>
        let success := decide (usedTokensAfterUpdate ≤ tokens)
        let resetNew := (((bucket + 1) * windowDuration : Nat) : Int)
        let c4 := if success then c3 else Cache.blockUntil c3 identifier resetNew
        -- the returned verdict carries reset from isBlocked (0 on this
        -- path), not resetNew, exactly as line 113 of the source does
        some (⟨success, tokens, max 0 (tokens - usedTokensAfterUpdate), reset⟩, some c4)
  | none => some (⟨true, tokens, 0, 0⟩, none)

/-- The weighting step of slidingWindow (single.ts lines 181-185): the
literal source divides the elapsed time by the window index
(now % currentWindow) / currentWindow; JavaScript number arithmetic is
modelled by exact rational arithmetic. -/
def weightedPrevious (now currentWindow : Nat) (reqPrev : Int) : Int :=
  ⌊(1 - ((now % currentWindow : Nat) : ℚ) / ((currentWindow : Nat) : ℚ)) * (reqPrev : ℚ)⌋

/-- RegionRatelimit.slidingWindow (single.ts lines 154-214), one call at
instant now.  When the current window index is 0 the source divides by
zero and every later quantity is NaN; that degenerate run is modelled as
none.  The assignment remaining := -1 at line 187 is dead (overwritten at
line 193) and has no observable effect. -/
def slidingWindow (tokens : Int) (windowSize : Nat) (cache : Option CacheState)
    (now : Nat) (identifier : String) : Option (Verdict × Option CacheState) :=
  let currentWindow := now / windowSize
  let currentKey := identifier ++ ":" ++ toString currentWindow
  let previousKey := identifier ++ ":" ++ toString ((currentWindow : Int) - 1)
  match cache with
  | some c =>
    let r := Cache.isBlocked c now identifier
    if r.1.1 then
      some (⟨false, tokens, 0, r.1.2⟩, some r.2)
    else
      let c1 := r.2
      let _requestsInCurrentWindow := (Cache.get c1 currentKey).getD 0
      let requestsInPreviousWindow := (Cache.get c1 previousKey).getD 0
      if currentWindow = 0 then none
      else
        let wPrev := weightedPrevious now currentWindow requestsInPreviousWindow
        let r2 := Cache.incr c1 now currentKey
        let newValue := r2.1
        let c2opt :=
          if newValue = 1 then Cache.expire r2.2 now currentKey (windowSize * 2 + 1000)
          else some r2.2
        match c2opt with
        | none => none
        | some c3 =>
          let remaining := tokens - (newValue + wPrev)
          let success := decide (0 ≤ remaining)
          let reset := (((currentWindow + 1) * windowSize : Nat) : Int)
          let c4 := if success then c3 else Cache.blockUntil c3 identifier reset
          some (⟨success, tokens, max 0 remaining, reset⟩, some c4)
  | none => some (⟨true, tokens, 0, 0⟩, none)

/-- RegionRatelimit.tokenBucket (single.ts lines 249-286).  The body is a
stub: after the fast-reject check it always returns success with
remaining = 0 and reset = 0 and writes nothing; refillRate and interval
are never read. -/
def tokenBucket (_refillRate : Int) (_interval : Nat) (maxTokens : Int)
    (cache : Option CacheState) (now : Nat) (identifier : String) :
    Verdict × Option CacheState :=
  match cache with
  | some c =>
    let r := Cache.isBlocked c now identifier
    if r.1.1 then (⟨false, maxTokens, 0, r.1.2⟩, some r.2)
    else (⟨true, maxTokens, 0, 0⟩, some r.2)
  | none => (⟨true, maxTokens, 0, 0⟩, none)

/-- RegionRatelimit.cachedFixedWindow (single.ts lines 324-370).  Without
a cache the source throws, modelled as none.  The hit path returns
tokens - count unclamped; the miss path stores 0 and returns tokens. -/
def cachedFixedWindow (tokens : Int) (windowDuration : Nat)
    (cache : Option CacheState) (now : Nat) (identifier : String) :
    Option (Verdict × CacheState) :=
  match cache with
  | none => none
  | some c =>
    let bucket := now / windowDuration
    let key := identifier ++ ":" ++ toString bucket
    let reset := (((bucket + 1) * windowDuration : Nat) : Int)
    if (Cache.get c key).isSome then
      let r := Cache.incr c now key
      let cachedTokensAfterUpdate := r.1
      some (⟨decide (cachedTokensAfterUpdate < tokens), tokens,
             tokens - cachedTokensAfterUpdate, reset⟩, r.2)
    else
      let usedTokensAfterUpdate : Int := 0
      let c1 := Cache.set c key usedTokensAfterUpdate
      let remaining := tokens - usedTokensAfterUpdate
      some (⟨decide (0 ≤ remaining), tokens, remaining, reset⟩, c1)

end RegionRatelimit

/-- Modelled from the spec: the intended elapsed-fraction weighting of the
sliding window, normalising by the window size rather than the window
index: floor((1 - (now mod windowMs) / windowMs) * requestsInPrevious).
Stated here only to compare against the weighting the source computes. -/
def specWeightedPrevious (now windowMs : Nat) (reqPrev : Int) : Int :=
  ⌊(1 - ((now % windowMs : Nat) : ℚ) / ((windowMs : Nat) : ℚ)) * (reqPrev : ℚ)⌋

/-- State of the cache after n sequential fixedWindow calls for one
identifier, the call of index i issued at instant t i, starting from the
empty cache.  none records a thrown exception along the way. -/
def runState (tokens : Int) (W : Nat) (identifier : String) (t : Nat → Nat) :
    Nat → Option CacheState
  | 0 => some []
  | n + 1 =>
    match runState tokens W identifier t n with
    | some c =>
      match RegionRatelimit.fixedWindow tokens W (some c) (t n) identifier with
      | some (_, some c1) => some c1
      | _ => none
    | none => none

/-- Verdict of the (n+1)th fixedWindow call in the run of runState. -/
def runVerdict (tokens : Int) (W : Nat) (identifier : String) (t : Nat → Nat)
    (n : Nat) : Option Verdict :=
  match runState tokens W identifier t n with
  | some c => (RegionRatelimit.fixedWindow tokens W (some c) (t n) identifier).map Prod.fst
  | none => none

/-- The windowed counter key of fixedWindow. -/
def fwKey (identifier : String) (b : Nat) : String :=
  identifier ++ ":" ++ toString b

/-- Canonical cache state mid-window: one counter entry holding cnt whose
expiry was set by the call at instant tPrev. -/
def fwCounter (identifier : String) (b W cnt tPrev : Nat) : CacheState :=
  [(fwKey identifier b, ⟨(cnt : Int), some (tPrev + W)⟩)]

/-- Evaluation bridge for the floor of an exact rational weighting. -/
lemma floor_one_sub_div_mul (a b : Nat) (r : Int) (h : 0 < b) :
    ⌊(1 - ((a : Nat) : ℚ) / ((b : Nat) : ℚ)) * (r : ℚ)⌋ =
      (((b : Int) - ((a : Nat) : Int)) * r) / (b : Int) := by
  have h2 : (1 - ((a : Nat) : ℚ) / ((b : Nat) : ℚ)) * (r : ℚ) =
      (((((b : Int) - ((a : Nat) : Int)) * r : Int) : ℚ)) / (((b : Nat) : ℚ)) := by
    have hb : ((b : ℚ)) ≠ 0 := Nat.cast_ne_zero.mpr h.ne'
    push_cast
    field_simp
  rw [h2, Rat.floor_intCast_div_natCast]

/-- The weighting of the source in integer-division form. -/
lemma weightedPrevious_eval (now cw : Nat) (r : Int) (h : 0 < cw) :
    RegionRatelimit.weightedPrevious now cw r =
      (((cw : Int) - ((now % cw : Nat) : Int)) * r) / (cw : Int) :=
  floor_one_sub_div_mul (now % cw) cw r h

/-- The weighting of the spec in integer-division form. -/
lemma specWeightedPrevious_eval (now w : Nat) (r : Int) (h : 0 < w) :
    specWeightedPrevious now w r =
      (((w : Int) - ((now % w : Nat) : Int)) * r) / (w : Int) :=
  floor_one_sub_div_mul (now % w) w r h

lemma lookupE_setE_self (c : CacheState) (k : String) (e : CacheEntry) :
    lookupE (setE c k e) k = some e := by
  induction c with
  | nil => simp [setE, lookupE]
  | cons hd tl ih =>
    rcases hd with ⟨k0, e0⟩
    by_cases hk : k0 = k
    · subst hk; simp [setE, lookupE]
    · simp [setE, lookupE, hk, ih]

lemma lookupE_setE_ne (c : CacheState) (k2 k : String) (e : CacheEntry)
    (h : k2 ≠ k) : lookupE (setE c k2 e) k = lookupE c k := by
  induction c with
  | nil => simp [setE, lookupE, h]
  | cons hd tl ih =>
    rcases hd with ⟨k0, e0⟩
    by_cases hk : k0 = k2
    · subst hk; simp [setE, lookupE, h]
    · simp only [setE, if_neg hk, lookupE]
      by_cases hk0 : k0 = k
      · simp [hk0]
      · simp [hk0, ih]

lemma lookupE_mem (c : CacheState) (k : String) (e : CacheEntry)
    (h : lookupE c k = some e) : (k, e) ∈ c := by
  induction c with
  | nil => simp [lookupE] at h
  | cons hd tl ih =>
    rcases hd with ⟨k0, e0⟩
    by_cases hk : k0 = k
    · subst hk
      simp [lookupE] at h
      simp [h]
    · simp only [lookupE, if_neg hk] at h
      exact List.mem_cons_of_mem _ (ih h)

lemma mem_delE (c : CacheState) (k : String) (p : String × CacheEntry)
    (h : p ∈ delE c k) : p ∈ c := by
  induction c with
  | nil => simp [delE] at h
  | cons hd tl ih =>
    rcases hd with ⟨k0, e0⟩
    by_cases hk : k0 = k
    · subst hk
      simp only [delE, if_pos rfl] at h
      exact List.mem_cons_of_mem _ h
    · simp only [delE, if_neg hk] at h
      rcases List.mem_cons.mp h with h1 | h1
      · exact h1 ▸ List.mem_cons_self _ _
      · exact List.mem_cons_of_mem _ (ih h1)

lemma mem_isBlocked_snd (c : CacheState) (now : Nat) (id : String)
    (p : String × CacheEntry) (h : p ∈ (Cache.isBlocked c now id).2) : p ∈ c := by
  unfold Cache.isBlocked at h
  split at h
  · exact h
  · split at h
    · exact mem_delE _ _ _ h
    · exact h

lemma mem_cleanup (c : CacheState) (now : Nat) (p : String × CacheEntry)
    (h : p ∈ Cache.cleanup c now) : p ∈ c :=
  List.mem_of_mem_filter h

lemma lookupE_filter_none (c : CacheState) (k : String) (p : String × CacheEntry → Bool)
    (h : ∀ e : CacheEntry, (k, e) ∈ c → p (k, e) = false) :
    lookupE (c.filter p) k = none := by
  induction c with
  | nil => rfl
  | cons hd tl ih =>
    rcases hd with ⟨k0, e0⟩
    have htl : ∀ e : CacheEntry, (k, e) ∈ tl → p (k, e) = false := by
      intro e he; exact h e (List.mem_cons_of_mem _ he)
    by_cases hk : k0 = k
    · subst hk
      have := h e0 (List.mem_cons_self _ _)
      simp only [List.filter, this]
      exact ih htl
    · cases hp : p (k0, e0)
      · simp only [List.filter, hp]
        exact ih htl
      · simp only [List.filter, hp, lookupE, if_neg hk]
        exact ih htl

lemma incr_fst_ge_one (c : CacheState) (now : Nat) (k : String)
    (hc : ∀ p ∈ c, 0 ≤ (p.2 : CacheEntry).value) : 1 ≤ (Cache.incr c now k).1 := by
  unfold Cache.incr
  rcases hl : lookupE (Cache.cleanup c now) k with _ | e
  · simp [hl]
  · have hm : (k, e) ∈ c := mem_cleanup _ _ _ (lookupE_mem _ _ _ hl)
    have hv : 0 ≤ e.value := hc _ hm
    simp only [hl, Option.map_some', Option.getD_some]
    omega

lemma get_getD_nonneg (c : CacheState) (k : String)
    (hc : ∀ p ∈ c, 0 ≤ (p.2 : CacheEntry).value) : 0 ≤ (Cache.get c k).getD 0 := by
  unfold Cache.get
  rcases hl : lookupE c k with _ | e
  · simp [hl]
  · have hm := hc _ (lookupE_mem _ _ _ hl)
    by_cases hv : e.value = 0
    · simp [hl, hv]
    · simpa [hl, hv] using hm

lemma weightedPrevious_nonneg (now cw : Nat) (r : Int) (hcw : 0 < cw) (hr : 0 ≤ r) :
    0 ≤ RegionRatelimit.weightedPrevious now cw r := by
  unfold RegionRatelimit.weightedPrevious
  apply Int.le_floor.mpr
  push_cast
  apply mul_nonneg _ (by exact_mod_cast hr)
  rw [sub_nonneg]
  apply div_le_one_of_le₀
  · exact_mod_cast (Nat.mod_lt now hcw).le
  · positivity

lemma incr_lookup (c : CacheState) (now : Nat) (k : String) :
    ∃ ea, lookupE (Cache.incr c now k).2 k =
      some ⟨(Cache.incr c now k).1, some ea⟩ := by
  unfold Cache.incr Cache.set
  exact ⟨_, lookupE_setE_self _ _ _⟩

lemma append_colon_ne (id s : String) : id ++ ":" ++ s ≠ id := by
  intro h
  have hlen := congrArg String.length h
  simp only [String.length_append] at hlen
  have : (":" : String).length = 1 := rfl
  omega

/-- C10: a cache entry whose stored value is the integer 0 is reported as
absent by Cache.get, regardless of its expiry state: the source returns
value || null and 0 is falsy. -/
theorem C10_get_zero_is_absent (c : CacheState) (k : String) (e : CacheEntry)
    (h1 : lookupE c k = some e) (h2 : e.value = 0) : Cache.get c k = none := by
  unfold Cache.get
  simp [h1, h2]

theorem C10_get_zero_is_absent_witness :
    lookupE [("k", ⟨0, some 999⟩)] "k" = some ⟨0, some 999⟩ ∧
    Cache.get [("k", ⟨0, some 999⟩)] "k" = none :=
  ⟨by decide,
   C10_get_zero_is_absent [("k", ⟨0, some 999⟩)] "k" ⟨0, some 999⟩ (by decide) (by decide)⟩

/-- C4 (code bug): on the non-fast-rejected fixedWindow path the verdict
carries the reset destructured from isBlocked, which is 0 when not
blocked, instead of the freshly computed (bucket + 1) * windowMs used for
blockUntil.  At tokens 10, window 10000 ms, now 5000, empty cache, the
call returns reset 0 although (bucket + 1) * windowMs = 10000. -/
theorem C4_fixed_window_returns_stale_reset :
    RegionRatelimit.fixedWindow 10 10000 (some []) 5000 "X" =
      some (⟨true, 10, 9, 0⟩, some [("X:0", ⟨1, some 15000⟩)]) ∧
    ((0 : Int) ≠ (((5000 / 10000 + 1) * 10000 : Nat) : Int)) := by
  constructor
  · decide
  · decide

/-- C5 (code bug): the sliding-window weighting divides the elapsed time
by the window index instead of the window size.  At windowMs 1000,
now 10500 (window index 10), 4 requests in the previous window, the
source computes weightedPrevious 4 whereas the documented formula
floor((1 - (now mod windowMs) / windowMs) * 4) gives 2, so the call
returns remaining 5 instead of the documented 7. -/
theorem C5_sliding_window_elapsed_fraction_bug :
    RegionRatelimit.weightedPrevious 10500 (10500 / 1000) 4 = 4 ∧
    specWeightedPrevious 10500 1000 4 = 2 ∧
    RegionRatelimit.slidingWindow 10 1000 (some [("X:9", ⟨4, none⟩)]) 10500 "X" =
      some (⟨true, 10, 5, 11000⟩,
        some [("X:9", ⟨4, none⟩), ("X:10", ⟨1, some 13500⟩)]) := by
  refine ⟨?_, ?_, ?_⟩
  · rw [weightedPrevious_eval _ _ _ (by decide)]
    decide
  · rw [specWeightedPrevious_eval _ _ _ (by decide)]
    decide
  · simp only [RegionRatelimit.slidingWindow]
    rw [weightedPrevious_eval _ _ _ (by decide)]
    decide

/-- C6 (code bug): tokenBucket is a stub.  On a fresh cache with
maxTokens 5 the call returns success with remaining 0 and reset 0 and
persists nothing, although the documented refill accounting would give
remaining floor(5 - 1) = 4, persist the bucket state, and reject once
the bucket is empty. -/
theorem C6_token_bucket_is_stub :
    RegionRatelimit.tokenBucket 5 10000 5 (some []) 0 "X" =
      (⟨true, 5, 0, 0⟩, some []) ∧
    RegionRatelimit.tokenBucket 5 10000 5 (some []) 123456 "X" =
      (⟨true, 5, 0, 0⟩, some []) ∧
    ((0 : Int) ≠ 4) := by
  refine ⟨by decide, by decide, by decide⟩

/-- C7 counterexample: cachedFixedWindow does not clamp remaining on its
cache-hit path.  With tokens 2 and a cached count of 5 for the current
window key, the call returns remaining -4, outside [0, limit]. -/
theorem C7_counterexample_negative_remaining :
    RegionRatelimit.cachedFixedWindow 2 1000 (some [("X:0", ⟨5, none⟩)]) 500 "X" =
      some (⟨false, 2, -4, 1000⟩, [("X:0", ⟨6, some 0⟩)]) ∧
    ((-4 : Int) < 0) := by
  refine ⟨by decide, by decide⟩

/-- C9 counterexample: fixedWindow applies expire on every call, not only
on first touch.  A second call in the same window at instant 200 moves
the expireAt of the window key from 1100 to 1200. -/
theorem C9_counterexample_expire_refreshed :
    RegionRatelimit.fixedWindow 10 1000 (some []) 100 "X" =
      some (⟨true, 10, 9, 0⟩, some [("X:0", ⟨1, some 1100⟩)]) ∧
    RegionRatelimit.fixedWindow 10 1000 (some [("X:0", ⟨1, some 1100⟩)]) 200 "X" =
      some (⟨true, 10, 8, 0⟩, some [("X:0", ⟨2, some 1200⟩)]) ∧
    (1100 : Nat) ≠ 1200 := by
  refine ⟨by decide, by decide, by decide⟩

/-- C3 counterexample: Cache.get does not consult expireAt.  After
expire("k", 100) at instant 0 the entry expires at 100, yet get still
returns the stored value (at every later instant: get reads no clock and
deletes nothing), where the claim requires absence at instant 201. -/
theorem C3_counterexample_get_ignores_expiry :
    Cache.expire [("k", ⟨5, none⟩)] 0 "k" 100 = some [("k", ⟨5, some 100⟩)] ∧
    Cache.get [("k", ⟨5, some 100⟩)] "k" = some 5 := by
  refine ⟨by decide, by decide⟩

/-- C8: misuse errors signal immediately.  expire on an absent key throws
(modelled as none), and cachedFixedWindow, the one algorithm that
structurally requires a cache, throws when none is configured instead of
returning a verdict. -/
theorem C8_misuse_errors_are_fatal (c : CacheState) (k : String) (now d : Nat)
    (hk : lookupE c k = none) :
    Cache.expire c now k d = none ∧
    ∀ (tokens : Int) (W now2 : Nat) (id : String),
      RegionRatelimit.cachedFixedWindow tokens W none now2 id = none := by
  constructor
  · unfold Cache.expire
    simp [hk]
  · intro tokens W now2 id
    rfl

theorem C8_misuse_errors_are_fatal_witness :
    lookupE [] "missing" = none ∧
    (Cache.expire [] 0 "missing" 100 = none ∧
     ∀ (tokens : Int) (W now2 : Nat) (id : String),
       RegionRatelimit.cachedFixedWindow tokens W none now2 id = none) :=
  ⟨rfl, C8_misuse_errors_are_fatal [] "missing" 0 100 rfl⟩

/-- C2: once isBlocked reports blocked with reset R, it does so again,
with the same R and without touching the cache, at every instant before
R; and on such a state the fast-reject path of fixedWindow, slidingWindow
and tokenBucket returns failure with remaining 0 and that same R while
leaving the cache, and hence every counter key, unchanged.
(cachedFixedWindow never consults the block index, so it has no
fast-reject path.) -/
theorem C2_monotonic_fast_reject (c : CacheState) (id : String) (t1 t2 : Nat)
    (R : Int) (h : (Cache.isBlocked c t1 id).1 = (true, R))
    (h2 : (t2 : Int) < R) :
    Cache.isBlocked c t1 id = ((true, R), c) ∧
    Cache.isBlocked c t2 id = ((true, R), c) ∧
    (∀ (tokens : Int) (W : Nat),
      RegionRatelimit.fixedWindow tokens W (some c) t2 id =
        some (⟨false, tokens, 0, R⟩, some c)) ∧
    (∀ (tokens : Int) (W : Nat),
      RegionRatelimit.slidingWindow tokens W (some c) t2 id =
        some (⟨false, tokens, 0, R⟩, some c)) ∧
    (∀ (rr : Int) (iv : Nat) (mt : Int),
      RegionRatelimit.tokenBucket rr iv mt (some c) t2 id =
        (⟨false, mt, 0, R⟩, some c)) := by
  have hl : ∃ e : CacheEntry, lookupE c id = some e ∧ e.value = R ∧
      ¬e.value < (t1 : Int) := by
    unfold Cache.isBlocked at h
    rcases he : lookupE c id with _ | e
    · rw [he] at h
      simp at h
    · rw [he] at h
      by_cases hv : e.value < (t1 : Int)
      · simp [hv] at h
      · simp [hv] at h
        exact ⟨e, rfl, h, hv⟩
  obtain ⟨e, he, hRe, hv1⟩ := hl
  have hv1' : ¬R < (t1 : Int) := hRe ▸ hv1
  have hv2' : ¬R < (t2 : Int) := by omega
  have hb1 : Cache.isBlocked c t1 id = ((true, R), c) := by
    unfold Cache.isBlocked
    rw [he]
    dsimp only
    rw [hRe, if_neg hv1']
  have hb2 : Cache.isBlocked c t2 id = ((true, R), c) := by
    unfold Cache.isBlocked
    rw [he]
    dsimp only
    rw [hRe, if_neg hv2']
  refine ⟨hb1, hb2, ?_, ?_, ?_⟩
  · intro tokens W
    simp [RegionRatelimit.fixedWindow, hb2]
  · intro tokens W
    simp [RegionRatelimit.slidingWindow, hb2]
  · intro rr iv mt
    simp [RegionRatelimit.tokenBucket, hb2]

theorem C2_monotonic_fast_reject_witness :
    (Cache.isBlocked [("X", ⟨1000, none⟩)] 500 "X").1 = (true, 1000) ∧
    ((700 : Nat) : Int) < 1000 ∧
    (Cache.isBlocked [("X", ⟨1000, none⟩)] 500 "X" =
        ((true, 1000), [("X", ⟨1000, none⟩)]) ∧
     Cache.isBlocked [("X", ⟨1000, none⟩)] 700 "X" =
        ((true, 1000), [("X", ⟨1000, none⟩)]) ∧
     (∀ (tokens : Int) (W : Nat),
       RegionRatelimit.fixedWindow tokens W (some [("X", ⟨1000, none⟩)]) 700 "X" =
         some (⟨false, tokens, 0, 1000⟩, some [("X", ⟨1000, none⟩)])) ∧
     (∀ (tokens : Int) (W : Nat),
       RegionRatelimit.slidingWindow tokens W (some [("X", ⟨1000, none⟩)]) 700 "X" =
         some (⟨false, tokens, 0, 1000⟩, some [("X", ⟨1000, none⟩)])) ∧
     (∀ (rr : Int) (iv : Nat) (mt : Int),
       RegionRatelimit.tokenBucket rr iv mt (some [("X", ⟨1000, none⟩)]) 700 "X" =
         (⟨false, mt, 0, 1000⟩, some [("X", ⟨1000, none⟩)]))) :=
  ⟨by decide, by decide,
   C2_monotonic_fast_reject [("X", ⟨1000, none⟩)] "X" 500 700 1000
     (by decide) (by decide)⟩

/-- C9 (amended): in fixedWindow, expire(key, windowMs) is applied on
every non-fast-rejected call, not only on first touch: after any such
call the window key's expireAt equals now + windowMs, whatever it was
before the call. -/
theorem C9_expire_applied_every_call (tokens : Int) (W now : Nat)
    (c : CacheState) (id : String) (hW : 0 < W)
    (hnb : (Cache.isBlocked c now id).1.1 = false) :
    ∃ (v : Verdict) (c2 : CacheState) (cnt : Int),
      RegionRatelimit.fixedWindow tokens W (some c) now id = some (v, some c2) ∧
      lookupE c2 (id ++ ":" ++ toString (now / W)) = some ⟨cnt, some (now + W)⟩ := by
  rcases hib : Cache.isBlocked c now id with ⟨⟨b, rst⟩, c1⟩
  have hb : b = false := by rw [hib] at hnb; exact hnb
  subst hb
  obtain ⟨ea, hea⟩ := incr_lookup c1 now (id ++ ":" ++ toString (now / W))
  simp only [RegionRatelimit.fixedWindow, hib, Bool.false_eq_true, if_false,
    Cache.expire, hea]
  by_cases hs : (Cache.incr c1 now (id ++ ":" ++ toString (now / W))).1 ≤ tokens
  · refine ⟨_, _, (Cache.incr c1 now (id ++ ":" ++ toString (now / W))).1, rfl, ?_⟩
    rw [decide_eq_true hs, if_pos rfl]
    exact lookupE_setE_self _ _ _
  · refine ⟨_, _, (Cache.incr c1 now (id ++ ":" ++ toString (now / W))).1, rfl, ?_⟩
    rw [decide_eq_false hs, if_neg (by simp), Cache.blockUntil,
      lookupE_setE_ne _ _ _ _ (fun hne => append_colon_ne _ _ hne.symm)]
    exact lookupE_setE_self _ _ _

theorem C9_expire_applied_every_call_witness :
    0 < 1000 ∧
    (Cache.isBlocked [("X:0", ⟨1, some 1100⟩)] 200 "X").1.1 = false ∧
    ∃ (v : Verdict) (c2 : CacheState) (cnt : Int),
      RegionRatelimit.fixedWindow 10 1000 (some [("X:0", ⟨1, some 1100⟩)]) 200 "X" =
        some (v, some c2) ∧
      lookupE c2 ("X" ++ ":" ++ toString (200 / 1000)) = some ⟨cnt, some (200 + 1000)⟩ :=
  ⟨by decide, by decide,
   C9_expire_applied_every_call 10 1000 200 [("X:0", ⟨1, some 1100⟩)] "X"
     (by decide) (by decide)⟩

/-- C3 (amended): Cache.get reports a key absent exactly when the key is
missing or its stored value is 0; it ignores expireAt and deletes
nothing.  An expired key (expireAt present, nonzero and reached) is
instead removed by the cleanup sweep run by the next increment: an
increment of any other key deletes it, and an increment of the key
itself restarts its count at 1. -/
theorem C3_get_and_sweep (c : CacheState) (k : String) (now : Nat)
    (hexp : ∀ e : CacheEntry, (k, e) ∈ c →
      ∃ ea, e.expireAt = some ea ∧ ea ≠ 0 ∧ ea ≤ now) :
    (∀ (c0 : CacheState) (k0 : String),
      Cache.get c0 k0 = none ↔
        (lookupE c0 k0 = none ∨ ∃ e : CacheEntry, lookupE c0 k0 = some e ∧ e.value = 0)) ∧
    (∀ k2, k2 ≠ k → lookupE (Cache.incr c now k2).2 k = none) ∧
    (Cache.incr c now k).1 = 1 := by
  have hkeep : ∀ e : CacheEntry, (k, e) ∈ c → Cache.keepEntry now e = false := by
    intro e he
    obtain ⟨ea, hea, hne, hle⟩ := hexp e he
    unfold Cache.keepEntry
    rw [hea]
    simp [hne, Nat.not_lt.mpr hle]
  have hclean : lookupE (Cache.cleanup c now) k = none := by
    unfold Cache.cleanup
    exact lookupE_filter_none c k _ (fun e he => hkeep e he)
  refine ⟨?_, ?_, ?_⟩
  · intro c0 k0
    unfold Cache.get
    rcases hl : lookupE c0 k0 with _ | e
    · simp
    · by_cases hv : e.value = 0
      · simp [hv]
      · simp [hv]
  · intro k2 hk2
    unfold Cache.incr Cache.set
    simp only []
    rw [lookupE_setE_ne _ _ _ _ hk2]
    exact hclean
  · unfold Cache.incr
    simp only [hclean, Option.map_none', Option.getD_none]
    rfl

theorem C3_get_and_sweep_witness :
    (∀ e : CacheEntry, ("k", e) ∈ ([("k", ⟨5, some 100⟩)] : CacheState) →
      ∃ ea, e.expireAt = some ea ∧ ea ≠ 0 ∧ ea ≤ 201) ∧
    ((∀ (c0 : CacheState) (k0 : String),
      Cache.get c0 k0 = none ↔
        (lookupE c0 k0 = none ∨
         ∃ e : CacheEntry, lookupE c0 k0 = some e ∧ e.value = 0)) ∧
     (∀ k2, k2 ≠ "k" →
       lookupE (Cache.incr [("k", ⟨5, some 100⟩)] 201 k2).2 "k" = none) ∧
     (Cache.incr [("k", ⟨5, some 100⟩)] 201 "k").1 = 1) := by
  have hexp : ∀ e : CacheEntry, ("k", e) ∈ ([("k", ⟨5, some 100⟩)] : CacheState) →
      ∃ ea, e.expireAt = some ea ∧ ea ≠ 0 ∧ ea ≤ 201 := by
    intro e he
    simp only [List.mem_singleton, Prod.mk.injEq, true_and] at he
    subst he
    exact ⟨100, rfl, by decide, by decide⟩
  exact ⟨hexp, C3_get_and_sweep [("k", ⟨5, some 100⟩)] "k" 201 hexp⟩


/-- C7 (amended): for fixedWindow, slidingWindow and tokenBucket, with a
nonnegative limit and a cache whose stored values are nonnegative (as
every algorithm-produced state is), the remaining of every returned
verdict lies in [0, limit].  cachedFixedWindow is the exception: its
cache-hit path returns tokens - count unclamped, which is negative once
the cached count exceeds the limit. -/
theorem C7_remaining_in_range (tokens : Int) (W : Nat) (c : CacheState)
    (now : Nat) (id : String) (htok : 0 ≤ tokens) (hW : 0 < W)
    (hc : ∀ p ∈ c, 0 ≤ (p.2 : CacheEntry).value) :
    (∀ (v : Verdict) (oc : Option CacheState),
      RegionRatelimit.fixedWindow tokens W (some c) now id = some (v, oc) →
        0 ≤ v.remaining ∧ v.remaining ≤ v.limit) ∧
    (∀ (v : Verdict) (oc : Option CacheState),
      RegionRatelimit.slidingWindow tokens W (some c) now id = some (v, oc) →
        0 ≤ v.remaining ∧ v.remaining ≤ v.limit) ∧
    (∀ (rr : Int) (iv : Nat),
      0 ≤ (RegionRatelimit.tokenBucket rr iv tokens (some c) now id).1.remaining ∧
      (RegionRatelimit.tokenBucket rr iv tokens (some c) now id).1.remaining ≤
        (RegionRatelimit.tokenBucket rr iv tokens (some c) now id).1.limit) := by
  rcases hib : Cache.isBlocked c now id with ⟨⟨b, rst⟩, c1⟩
  have hc1 : ∀ p ∈ c1, 0 ≤ (p.2 : CacheEntry).value := by
    intro p hp
    exact hc p (mem_isBlocked_snd c now id p (by rw [hib]; exact hp))
  refine ⟨?_, ?_, ?_⟩
  · intro v oc h
    simp only [RegionRatelimit.fixedWindow, hib] at h
    cases b
    · simp only [Bool.false_eq_true, if_false] at h
      rcases hex : Cache.expire (Cache.incr c1 now (id ++ ":" ++ toString (now / W))).2
          now (id ++ ":" ++ toString (now / W)) W with _ | c3
      · rw [hex] at h
        simp at h
      · rw [hex] at h
        simp only [Option.some.injEq, Prod.mk.injEq] at h
        have hcnt := incr_fst_ge_one c1 now (id ++ ":" ++ toString (now / W)) hc1
        obtain ⟨hv, _⟩ := h
        subst hv
        refine ⟨le_max_left 0 _, max_le htok (by dsimp only; omega)⟩
    · simp only [if_true, Option.some.injEq, Prod.mk.injEq] at h
      obtain ⟨hv, _⟩ := h
      subst hv
      exact ⟨le_refl 0, htok⟩
  · intro v oc h
    simp only [RegionRatelimit.slidingWindow, hib] at h
    cases b
    · simp only [Bool.false_eq_true, if_false] at h
      by_cases hcw : now / W = 0
      · rw [if_pos hcw] at h
        simp at h
      · rw [if_neg hcw] at h
        have hwp : 0 ≤ RegionRatelimit.weightedPrevious now (now / W)
            ((Cache.get c1 (id ++ ":" ++ toString (((now / W : Nat) : Int) - 1))).getD 0) :=
          weightedPrevious_nonneg _ _ _ (Nat.pos_of_ne_zero hcw)
            (get_getD_nonneg c1 _ hc1)
        have hcnt := incr_fst_ge_one c1 now (id ++ ":" ++ toString (now / W)) hc1
        rcases hopt : (if (Cache.incr c1 now (id ++ ":" ++ toString (now / W))).1 = 1 then
            Cache.expire (Cache.incr c1 now (id ++ ":" ++ toString (now / W))).2 now
              (id ++ ":" ++ toString (now / W)) (W * 2 + 1000)
          else some (Cache.incr c1 now (id ++ ":" ++ toString (now / W))).2) with _ | c3
        · rw [hopt] at h
          simp at h
        · rw [hopt] at h
          simp only [Option.some.injEq, Prod.mk.injEq] at h
          obtain ⟨hv, _⟩ := h
          subst hv
          refine ⟨le_max_left 0 _, max_le htok (by dsimp only; omega)⟩
    · simp only [if_true, Option.some.injEq, Prod.mk.injEq] at h
      obtain ⟨hv, _⟩ := h
      subst hv
      exact ⟨le_refl 0, htok⟩
  · intro rr iv
    simp only [RegionRatelimit.tokenBucket, hib]
    cases b
    · simp only [Bool.false_eq_true, if_false]
      exact ⟨le_refl 0, htok⟩
    · simp only [if_true]
      exact ⟨le_refl 0, htok⟩

theorem C7_remaining_in_range_witness :
    (0 : Int) ≤ 2 ∧ 0 < 1000 ∧
    (∀ p ∈ ([] : CacheState), 0 ≤ (p.2 : CacheEntry).value) ∧
    ((∀ (v : Verdict) (oc : Option CacheState),
      RegionRatelimit.fixedWindow 2 1000 (some []) 500 "X" = some (v, oc) →
        0 ≤ v.remaining ∧ v.remaining ≤ v.limit) ∧
    (∀ (v : Verdict) (oc : Option CacheState),
      RegionRatelimit.slidingWindow 2 1000 (some []) 500 "X" = some (v, oc) →
        0 ≤ v.remaining ∧ v.remaining ≤ v.limit) ∧
    (∀ (rr : Int) (iv : Nat),
      0 ≤ (RegionRatelimit.tokenBucket rr iv 2 (some []) 500 "X").1.remaining ∧
      (RegionRatelimit.tokenBucket rr iv 2 (some []) 500 "X").1.remaining ≤
        (RegionRatelimit.tokenBucket rr iv 2 (some []) 500 "X").1.limit)) :=
  ⟨by decide, by decide, by simp,
   C7_remaining_in_range 2 1000 [] 500 "X" (by decide) (by decide) (by simp)⟩

lemma fw_call_from_empty (N : Int) (W b now : Nat) (id : String)
    (hlo : b * W ≤ now) (hhi : now < (b + 1) * W) :
    RegionRatelimit.fixedWindow N W (some []) now id =
      some (⟨decide ((1 : Int) ≤ N), N, max 0 (N - 1), 0⟩,
        some (if (1 : Int) ≤ N then fwCounter id b W 1 now
              else fwCounter id b W 1 now ++
                [(id, ⟨(((b + 1) * W : Nat) : Int), none⟩)])) := by
  have hbucket : now / W = b := Nat.div_eq_of_lt_le hlo hhi
  have hne : id ++ ":" ++ toString b ≠ id := append_colon_ne id _
  by_cases hs : (1 : Int) ≤ N
  · simp [RegionRatelimit.fixedWindow, hbucket, Cache.isBlocked, lookupE,
      Cache.incr, Cache.cleanup, Cache.set, Cache.expire, Cache.blockUntil,
      setE, fwCounter, fwKey, hne, hs]
  · simp [RegionRatelimit.fixedWindow, hbucket, Cache.isBlocked, lookupE,
      Cache.incr, Cache.cleanup, Cache.set, Cache.expire, Cache.blockUntil,
      setE, fwCounter, fwKey, hne, hs]

lemma fw_call_from_counter (N : Int) (W b cnt tPrev now : Nat) (id : String)
    (hlo : b * W ≤ now) (hhi : now < (b + 1) * W) (hkeep : now < tPrev + W) :
    RegionRatelimit.fixedWindow N W (some (fwCounter id b W cnt tPrev)) now id =
      some (⟨decide (((cnt : Int) + 1) ≤ N), N, max 0 (N - ((cnt : Int) + 1)), 0⟩,
        some (if ((cnt : Int) + 1) ≤ N then fwCounter id b W (cnt + 1) now
              else fwCounter id b W (cnt + 1) now ++
                [(id, ⟨(((b + 1) * W : Nat) : Int), none⟩)])) := by
  have hbucket : now / W = b := Nat.div_eq_of_lt_le hlo hhi
  have hne : id ++ ":" ++ toString b ≠ id := append_colon_ne id _
  have hkp : Cache.keepEntry now (⟨(cnt : Int), some (tPrev + W)⟩ : CacheEntry) = true := by
    unfold Cache.keepEntry
    simp [hkeep]
  by_cases hs : ((cnt : Int) + 1) ≤ N
  · simp [RegionRatelimit.fixedWindow, hbucket, Cache.isBlocked, lookupE,
      Cache.incr, Cache.cleanup, List.filter_cons, hkp, Cache.set,
      Cache.expire, Cache.blockUntil, setE, fwCounter, fwKey, hne, hs]
  · simp [RegionRatelimit.fixedWindow, hbucket, Cache.isBlocked, lookupE,
      Cache.incr, Cache.cleanup, List.filter_cons, hkp, Cache.set,
      Cache.expire, Cache.blockUntil, setE, fwCounter, fwKey, hne, hs]

lemma runState_counter (N W b : Nat) (id : String) (t : Nat → Nat)
    (hb : ∀ i, i ≤ N → b * W ≤ t i ∧ t i < (b + 1) * W) :
    ∀ k, 1 ≤ k → k ≤ N →
      runState (N : Int) W id t k = some (fwCounter id b W k (t (k - 1))) := by
  intro k
  induction k with
  | zero => intro h1 _; omega
  | succ n ih =>
    intro _ hkN
    by_cases hn : n = 0
    · subst hn
      have hb0 := hb 0 (by omega)
      simp only [runState]
      rw [fw_call_from_empty (N : Int) W b (t 0) id hb0.1 hb0.2]
      have h1 : (1 : Int) ≤ (N : Int) := by exact_mod_cast hkN
      rw [if_pos h1]
    · have hn1 : 1 ≤ n := by omega
      have hnN : n ≤ N := by omega
      have hbn := hb n hnN
      have hbn1 := hb (n - 1) (by omega)
      have hmul : (b + 1) * W = b * W + W := by ring
      have hkeep : t n < t (n - 1) + W := by omega
      simp only [runState, ih hn1 hnN]
      rw [fw_call_from_counter (N : Int) W b n (t (n - 1)) (t n) id
        hbn.1 hbn.2 hkeep]
      have hs : ((n : Int) + 1) ≤ (N : Int) := by exact_mod_cast hkN
      rw [if_pos hs]
      simp

/-- C1: for every limit N ≥ 1 and window W > 0, a run of sequential
fixedWindow calls for one identifier, all at instants inside bucket b and
starting from the empty cache, succeeds on exactly the first N calls with
remaining descending N-1, ..., 0, fails on call N+1 with remaining 0, and
that failing call stores a BlockRecord for the identifier whose instant
is the start of the next bucket, (b+1)*W.  No spacing assumption is made
on the instants beyond their lying in the bucket. -/
theorem C1_fixed_window_window_isolation (N W b : Nat) (id : String)
    (t : Nat → Nat) (hW : 0 < W) (hN : 1 ≤ N)
    (hb : ∀ i, i ≤ N → b * W ≤ t i ∧ t i < (b + 1) * W) :
    (∀ i, i < N → runVerdict (N : Int) W id t i =
      some ⟨true, (N : Int), ((N - (i + 1) : Nat) : Int), 0⟩) ∧
    runVerdict (N : Int) W id t N = some ⟨false, (N : Int), 0, 0⟩ ∧
    (∃ cf, runState (N : Int) W id t (N + 1) = some cf ∧
      lookupE cf id = some ⟨(((b + 1) * W : Nat) : Int), none⟩) := by
  have hmul : (b + 1) * W = b * W + W := by ring
  refine ⟨?_, ?_, ?_⟩
  · intro i hi
    by_cases h0 : i = 0
    · subst h0
      have hb0 := hb 0 (by omega)
      have h1 : (1 : Int) ≤ (N : Int) := by exact_mod_cast hN
      simp only [runVerdict, runState]
      rw [fw_call_from_empty (N : Int) W b (t 0) id hb0.1 hb0.2]
      simp only [Option.map_some', decide_eq_true h1]
      have hrem : max 0 ((N : Int) - 1) = ((N - (0 + 1) : Nat) : Int) := by
        rw [max_eq_right (by omega : (0 : Int) ≤ (N : Int) - 1)]
        omega
      rw [hrem]
    · have hi1 : 1 ≤ i := by omega
      have hiN : i ≤ N := by omega
      have hbi := hb i hiN
      have hkeep : t i < t (i - 1) + W := by
        have := (hb (i - 1) (by omega)).1
        omega
      simp only [runVerdict,
        runState_counter N W b id t hb i hi1 hiN]
      rw [fw_call_from_counter (N : Int) W b i (t (i - 1)) (t i) id
        hbi.1 hbi.2 hkeep]
      have hs : ((i : Int) + 1) ≤ (N : Int) := by exact_mod_cast hi
      simp only [Option.map_some', decide_eq_true hs]
      have hrem : max 0 ((N : Int) - ((i : Int) + 1)) = ((N - (i + 1) : Nat) : Int) := by
        rw [max_eq_right (by omega : (0 : Int) ≤ (N : Int) - ((i : Int) + 1))]
        omega
      rw [hrem]
  · have hbN := hb N (le_refl N)
    have hkeep : t N < t (N - 1) + W := by
      have := (hb (N - 1) (by omega)).1
      omega
    simp only [runVerdict,
      runState_counter N W b id t hb N hN (le_refl N)]
    rw [fw_call_from_counter (N : Int) W b N (t (N - 1)) (t N) id
      hbN.1 hbN.2 hkeep]
    have hs : ¬((N : Int) + 1) ≤ (N : Int) := by omega
    simp only [Option.map_some', decide_eq_false hs]
    have hrem : max 0 ((N : Int) - ((N : Int) + 1)) = 0 := by
      rw [max_eq_left (by omega : (N : Int) - ((N : Int) + 1) ≤ 0)]
    rw [hrem]
  · have hbN := hb N (le_refl N)
    have hkeep : t N < t (N - 1) + W := by
      have := (hb (N - 1) (by omega)).1
      omega
    have hne : id ++ ":" ++ toString b ≠ id := append_colon_ne id _
    refine ⟨fwCounter id b W (N + 1) (t N) ++
      [(id, ⟨(((b + 1) * W : Nat) : Int), none⟩)], ?_, ?_⟩
    · simp only [runState,
        runState_counter N W b id t hb N hN (le_refl N)]
      rw [fw_call_from_counter (N : Int) W b N (t (N - 1)) (t N) id
        hbN.1 hbN.2 hkeep]
      have hs : ¬((N : Int) + 1) ≤ (N : Int) := by omega
      rw [if_neg hs]
    · simp [fwCounter, fwKey, lookupE, hne]

theorem C1_fixed_window_window_isolation_witness :
    0 < 1000 ∧ 1 ≤ 2 ∧
    (∀ i, i ≤ 2 → 0 * 1000 ≤ (fun _ => 50) i ∧ (fun _ => 50) i < (0 + 1) * 1000) ∧
    ((∀ i, i < 2 → runVerdict ((2 : Nat) : Int) 1000 "X" (fun _ => 50) i =
        some ⟨true, ((2 : Nat) : Int), ((2 - (i + 1) : Nat) : Int), 0⟩) ∧
     runVerdict ((2 : Nat) : Int) 1000 "X" (fun _ => 50) 2 =
        some ⟨false, ((2 : Nat) : Int), 0, 0⟩ ∧
     (∃ cf, runState ((2 : Nat) : Int) 1000 "X" (fun _ => 50) 3 = some cf ∧
        lookupE cf "X" = some ⟨(((0 + 1) * 1000 : Nat) : Int), none⟩)) :=
  ⟨by decide, by decide, fun i _ => ⟨by norm_num, by norm_num⟩,
   C1_fixed_window_window_isolation 2 1000 0 "X" (fun _ => 50)
     (by decide) (by decide) (fun i _ => ⟨by norm_num, by norm_num⟩)⟩
